import Mathlib

/-!
Verification development for the latent-video-diffusion VAE module
(`latentvideodiffusion/vae.py`).

Tensors are modelled shallowly: a frame (or latent vector) is a `List ℝ`
and a batch is a `List (List ℝ)` (leading axis = examples).  A
`GaussianParams` value is the source's `(mean, log_var)` tuple of two
equally-shaped tensors.  `jax.random.normal` is opaque third-party code;
it is modelled as an explicit function parameter `normal : Key → List ℕ → Tensor2`
mapping an RNG key and a shape (the per-row lengths of the mean tensor)
to a noise tensor, which captures exactly what the source relies on: the
noise depends only on the key and the shape of the requested array.
-/

abbrev Key := ℕ

abbrev Tensor1 := List ℝ

abbrev Tensor2 := List (List ℝ)

abbrev Tensor3 := List (List (List ℝ))

/-- Pair up the mean tensor and the log-variance tensor of a
`GaussianParams` value cell by cell. -/
def zipT2 (a b : Tensor2) : List (List (ℝ × ℝ)) :=
  List.zipWith List.zip a b

/-- Sum of all elements of a 2-D tensor (`jnp.sum`). -/
def sum2 (t : Tensor2) : ℝ :=
  (t.map List.sum).sum

/-- Total element count of a 2-D tensor (`data.size` in the source). -/
def size2 (t : Tensor2) : ℕ :=
  (t.map List.length).sum

/-- Elementwise negation (the `-log_p` in the source). -/
def neg2 (t : Tensor2) : Tensor2 :=
  t.map (List.map (fun x => -x))

/-- A tensor of zeros of the same shape as `t`; used to expand the
scalar standard-normal prior `(0, 0)` that numpy broadcasting applies
against the latent tensor's shape. -/
def zerosLike (t : Tensor2) : Tensor2 :=
  t.map (List.map (fun _ => (0 : ℝ)))

/-- `jax.vmap f` over the leading (example) axis, for `f` returning a
`GaussianParams` pair: the per-example means and log-variances are
stacked back into two tensors. -/
def vmap2 (f : Tensor1 → Tensor1 × Tensor1) (data : Tensor2) : Tensor2 × Tensor2 :=
  (data.map (fun x => (f x).1), data.map (fun x => (f x).2))

/-- One cell of the closed-form Gaussian KL divergence, from
`gaussian_kl_divergence` (vae.py lines 14-19):
`(q_log_var - p_log_var + (exp(p_log_var) + (p_mean - q_mean)^2)/exp(q_log_var) - 1)/2`. -/
noncomputable def klCell (pm plv qm qlv : ℝ) : ℝ :=
  (qlv - plv + (Real.exp plv + (pm - qm) ^ 2) / Real.exp qlv - 1) / 2

/-- `gaussian_kl_divergence(p, q)` (vae.py lines 14-19): elementwise KL
divergence of two equally-shaped `GaussianParams` pairs, not reduced. -/
noncomputable def gaussian_kl_divergence (p q : Tensor2 × Tensor2) : Tensor2 :=
  List.zipWith (List.zipWith (fun pc qc => klCell pc.1 pc.2 qc.1 qc.2))
    (zipT2 p.1 p.2) (zipT2 q.1 q.2)

/-- One cell of `gaussian_log_probabilty` (vae.py lines 21-24):
`(-1/2)*((x-mean)^2/exp(log_var)) - log_var/2 - log(sqrt(2*pi))`. -/
noncomputable def logpCell (pm plv x : ℝ) : ℝ :=
  (-1 / 2) * ((x - pm) ^ 2 / Real.exp plv) - plv / 2 - Real.log (Real.sqrt (2 * Real.pi))

/-- `gaussian_log_probabilty(p, x)` (vae.py lines 21-24): elementwise
log-probability of tensor `x` under `GaussianParams` `p`. -/
noncomputable def gaussian_log_probabilty (p : Tensor2 × Tensor2) (x : Tensor2) : Tensor2 :=
  List.zipWith (List.zipWith (fun pc xv => logpCell pc.1 pc.2 xv)) (zipT2 p.1 p.2) x

/-- One cell of `sample_gaussian`: `noise * exp(log_var/2) + mean`. -/
noncomputable def sampleCell (m lv e : ℝ) : ℝ :=
  e * Real.exp (lv / 2) + m

/-- `sample_gaussian(p, key)` (vae.py lines 26-29): reparameterized
sampling, `jax.random.normal(key, shape=p_mean.shape) * exp(p_log_var/2) + p_mean`,
with the opaque `jax.random.normal` passed in as `normal`. -/
noncomputable def sample_gaussian (normal : Key → List ℕ → Tensor2)
    (p : Tensor2 × Tensor2) (key : Key) : Tensor2 :=
  List.zipWith (List.zipWith (fun pc e => sampleCell pc.1 pc.2 e))
    (zipT2 p.1 p.2) (normal key (p.1.map List.length))

/-- `vae_loss(vae, data, key)` (vae.py lines 36-60), translated clause by
clause: encode the batch, draw one reparameterized latent sample, compute
the KL term against the broadcast standard-normal prior `(0, 0)`, decode,
compute the data log-probability, and return
`sum(map(jnp.sum, [-log_p, kl])) / data.size`. -/
noncomputable def vae_loss (normal : Key → List ℕ → Tensor2)
    (vae : (Tensor1 → Tensor1 × Tensor1) × (Tensor1 → Tensor1 × Tensor1))
    (data : Tensor2) (key : Key) : ℝ :=
  let q := vmap2 vae.1 data
  let z := sample_gaussian normal q key
  let kl := gaussian_kl_divergence q (zerosLike q.1, zerosLike q.1)
  let p := vmap2 vae.2 z
  let log_p := gaussian_log_probabilty p data
  (sum2 (neg2 log_p) + sum2 kl) / (size2 data : ℝ)

/-- `concat_probabilties` shape model of `jnp.concatenate(..., axis=1)`:
numpy requires the non-concatenated (batch) axis lengths to agree and
raises a shape error otherwise; failure is `none`. -/
def concatAxis1 (a b : Tensor2) : Option Tensor2 :=
  if a.length = b.length then some (List.zipWith (fun ra rb => ra ++ rb) a b) else none

/-- `concat_probabilties(p_a, p_b)` (vae.py lines 31-34): concatenate the
means and the log-variances along axis 1; a shape error in either
concatenation fails the whole operation. -/
def concat_probabilties (pa pb : Tensor2 × Tensor2) : Option (Tensor2 × Tensor2) :=
  match concatAxis1 pa.1 pb.1, concatAxis1 pa.2 pb.2 with
  | some m, some lv => some (m, lv)
  | _, _ => none

/-- Modelled from the spec: `jax.random.split` (third-party) splits an
opaque RNG key into two fresh independent keys; the spec requires that a
key is "never reused across two independent stochastic draws without an
explicit split".  Keys are modelled as naturals and the split as an
injective pairing, so the two children are distinct from each other. -/
def random_split (k : Key) : Key × Key :=
  (2 * k + 1, 2 * k + 2)

/-- `jnp.zeros((r, c))`. -/
def zeros2 (r c : ℕ) : Tensor2 :=
  List.replicate r (List.replicate c (0 : ℝ))

/-- `sample_vae(n_latent, n_samples, vae, key)` (vae.py lines 72-79):
split the key, draw latents from the standard-normal prior
`p_z = (zeros((n_samples, n_latent)),)*2` with the first child key,
decode, and draw the output sample with the second child key. -/
noncomputable def sample_vae (normal : Key → List ℕ → Tensor2)
    (n_latent n_samples : ℕ)
    (vae : (Tensor1 → Tensor1 × Tensor1) × (Tensor1 → Tensor1 × Tensor1))
    (key : Key) : Tensor2 :=
  let ks := random_split key
  let decoder := vae.2
  let p_z := (zeros2 n_samples n_latent, zeros2 n_samples n_latent)
  let z := sample_gaussian normal p_z ks.1
  let p_x := vmap2 decoder z
  sample_gaussian normal p_x ks.2

/-- One cell of `jax.lax.clamp(0., samples, 255.)`. -/
noncomputable def clampCell (x : ℝ) : ℝ :=
  max 0 (min x 255)

/-- Elementwise clamp of a 3-D tensor to `[0, 255]`
(`y = jax.lax.clamp(0., samples, 255.)`, vae.py line 90). -/
noncomputable def clamp_tensor (t : Tensor3) : Tensor3 :=
  t.map (List.map (List.map clampCell))

/-- Leading-axis length of a 3-D tensor. -/
def dim0 (t : Tensor3) : ℕ := t.length

/-- Middle-axis length of a (rectangular) 3-D tensor. -/
def dim1 (t : Tensor3) : ℕ := (t.getD 0 []).length

/-- Trailing-axis length of a (rectangular) 3-D tensor. -/
def dim2 (t : Tensor3) : ℕ := ((t.getD 0 []).getD 0 []).length

/-- Element access `t[i, j, k]`, defaulting to `0` out of bounds. -/
def elem3 (t : Tensor3) (i j k : ℕ) : ℝ :=
  ((t.getD i []).getD j []).getD k 0

/-- `y.transpose(2, 1, 0)` (vae.py line 91): axis reversal of a 3-D
tensor, `result[i, j, k] = t[k, j, i]`. -/
def transpose210 (t : Tensor3) : Tensor3 :=
  (List.range (dim2 t)).map (fun i =>
    (List.range (dim1 t)).map (fun j =>
      (List.range (dim0 t)).map (fun k => elem3 t k j i)))

/-- `show_samples(samples)` (vae.py lines 89-94), up to the display
conversion: the tensor handed to the `uint8` conversion and display is
the transpose of the clamped input,
`frame = jnp.array(y.transpose(2,1,0), dtype=jnp.uint8)` with
`y = jax.lax.clamp(0., samples, 255.)`. -/
noncomputable def show_samples (samples : Tensor3) : Tensor3 :=
  transpose210 (clamp_tensor samples)

/-- `TrainingState`: the source's tuple `(vae, opt_state, key, i)`
(vae.py line 159).  The model and optimizer state are opaque type
parameters; only the key and the iteration counter are interpreted. -/
structure TrainState (M O : Type) where
  vae : M
  optState : O
  key : Key
  iter : ℕ

/-- Modelled from the spec: `utils.update_state` is repository code not
under `src/` (only its caller is).  Per spec section 4.3 it splits the
RNG state into two streams (one consumed by this step, one retained),
computes the gradient update through the opaque numeric core `inner`,
and increments `Iteration` by one, returning the loss and the new
`TrainingState`. -/
def update_state {M O : Type} (inner : M → O → Key → Tensor2 → ℝ × M × O)
    (s : TrainState M O) (data : Tensor2) : ℝ × TrainState M O :=
  let ks := random_split s.key
  let r := inner s.vae s.optState ks.1 data
  (r.1, ⟨r.2.1, r.2.2, ks.2, s.iter + 1⟩)

/-- The observable state of one training run: the `TrainingState`, the
contents of the metrics log file, and the list of persisted checkpoints
as `(iteration tag, saved state)` pairs. -/
structure LoopState (M O : Type) where
  ts : TrainState M O
  log : List ℝ
  ckpts : List (ℕ × TrainState M O)

/-- One iteration of the training loop body (vae.py lines 172-187):
update the state, append the loss to the metrics log and flush, then, if
`(iteration % ckpt_interval) == (ckpt_interval - 1)` for the post-update
iteration counter, persist a checkpoint at
`utils.ckpt_path(ckpt_dir, iteration + 1, "vae")`. -/
def train_iter {M O : Type} (inner : M → O → Key → Tensor2 → ℝ × M × O)
    (ckpt_interval : ℕ) (ls : LoopState M O) (data : Tensor2) : LoopState M O :=
  let r := update_state inner ls.ts data
  let log := ls.log ++ [r.1]
  if r.2.iter % ckpt_interval = ckpt_interval - 1 then
    ⟨r.2, log, ls.ckpts ++ [(r.2.iter + 1, r.2)]⟩
  else
    ⟨r.2, log, ls.ckpts⟩

/-- The training loop run over a finite prefix of the unbounded batch
stream (the source's `for _ in utils.tqdm_inf()` loop). -/
def train_run {M O : Type} (inner : M → O → Key → Tensor2 → ℝ × M × O)
    (ckpt_interval : ℕ) (ls : LoopState M O) (batches : List Tensor2) : LoopState M O :=
  batches.foldl (train_iter inner ckpt_interval) ls

/-- `train(args, cfg)` (vae.py lines 141-188) after INITIALIZING: the
initial `TrainingState` is either fresh (iteration 0) or a loaded
checkpoint, and `open(metrics_path, "w")` opens the metrics file in
write mode, so the run starts from an empty log no matter what
`prevMetricsFile` (the file content before the run) held.  Checkpoints
start empty for the run. -/
def train {M O : Type} (inner : M → O → Key → Tensor2 → ℝ × M × O)
    (ckpt_interval : ℕ) (init_state : TrainState M O) (prevMetricsFile : List ℝ)
    (batches : List Tensor2) : LoopState M O :=
  train_run inner ckpt_interval ⟨init_state, [], []⟩ batches

/-- The metrics log file content once a `train` run has processed
`batches`; the content present before the run is passed in so the claim
about preservation can be stated. -/
def metrics_file_after_train {M O : Type} (inner : M → O → Key → Tensor2 → ℝ × M × O)
    (ckpt_interval : ℕ) (init_state : TrainState M O) (prevMetricsFile : List ℝ)
    (batches : List Tensor2) : List ℝ :=
  (train inner ckpt_interval init_state prevMetricsFile batches).log

/-- Running `K` further bare update steps from a (loaded) `TrainingState`
(spec section 4.3), without the logging and checkpointing wrapper. -/
def run_updates {M O : Type} (inner : M → O → Key → Tensor2 → ℝ × M × O)
    (s : TrainState M O) (batches : List Tensor2) : TrainState M O :=
  batches.foldl (fun st d => (update_state inner st d).2) s

/-- An IEEE-style scalar as the optimizer chain sees it: a finite real,
one of the two infinities, or NaN.  The optimizer (optax) is third-party
code; its transforms are modelled from the spec on this value type so
that the non-finite-suppression policy is expressible. -/
inductive FVal where
  | fin : ℝ → FVal
  | pinf : FVal
  | ninf : FVal
  | nan : FVal

/-- Whether a value is NaN. -/
def FVal.isNaN : FVal → Bool
  | .nan => true
  | _ => false

/-- Whether a value is finite. -/
def FVal.isFin : FVal → Bool
  | .fin _ => true
  | _ => false

/-- IEEE-style addition on `FVal`. -/
noncomputable def fadd : FVal → FVal → FVal
  | .nan, _ => .nan
  | _, .nan => .nan
  | .fin x, .fin y => .fin (x + y)
  | .fin _, .pinf => .pinf
  | .fin _, .ninf => .ninf
  | .pinf, .fin _ => .pinf
  | .ninf, .fin _ => .ninf
  | .pinf, .pinf => .pinf
  | .ninf, .ninf => .ninf
  | .pinf, .ninf => .nan
  | .ninf, .pinf => .nan

/-- IEEE-style multiplication on `FVal` (`0 * inf = NaN`). -/
noncomputable def fmul : FVal → FVal → FVal
  | .nan, _ => .nan
  | _, .nan => .nan
  | .fin x, .fin y => .fin (x * y)
  | .fin x, .pinf => if x = 0 then .nan else if 0 < x then .pinf else .ninf
  | .fin x, .ninf => if x = 0 then .nan else if 0 < x then .ninf else .pinf
  | .pinf, .fin y => if y = 0 then .nan else if 0 < y then .pinf else .ninf
  | .ninf, .fin y => if y = 0 then .nan else if 0 < y then .ninf else .pinf
  | .pinf, .pinf => .pinf
  | .ninf, .ninf => .pinf
  | .pinf, .ninf => .ninf
  | .ninf, .pinf => .ninf

/-- IEEE-style division on `FVal` (`inf / inf = NaN`, `x / 0 = ±inf`). -/
noncomputable def fdiv : FVal → FVal → FVal
  | .nan, _ => .nan
  | _, .nan => .nan
  | .fin x, .fin y =>
      if y = 0 then (if x = 0 then .nan else if 0 < x then .pinf else .ninf)
      else .fin (x / y)
  | .fin _, .pinf => .fin 0
  | .fin _, .ninf => .fin 0
  | .pinf, .fin y => if 0 ≤ y then .pinf else .ninf
  | .ninf, .fin y => if 0 ≤ y then .ninf else .pinf
  | .pinf, .pinf => .nan
  | .pinf, .ninf => .nan
  | .ninf, .pinf => .nan
  | .ninf, .ninf => .nan

/-- IEEE-style square root on `FVal` (`sqrt` of a negative is NaN). -/
noncomputable def fsqrt : FVal → FVal
  | .nan => .nan
  | .pinf => .pinf
  | .ninf => .nan
  | .fin x => if x < 0 then .nan else .fin (Real.sqrt x)

/-- Modelled from the spec: one cell of the adaptive-moment-estimation
(adam) gradient transform, third-party `optax.adam` with its default
decay rates `b1 = 0.9`, `b2 = 0.999` and stabilizer `eps = 1e-8`: update
the two moment estimates from the gradient cell, bias-correct them with
the incremented step count, and emit `-lr * mhat / (sqrt(vhat) + eps)`. -/
noncomputable def adamCell (lr : ℝ) (t : ℕ) (g m v : FVal) : FVal :=
  fmul (.fin (-lr))
    (fdiv
      (fdiv (fadd (fmul (.fin 0.9) m) (fmul (.fin 0.1) g))
        (.fin (1 - (0.9 : ℝ) ^ (t + 1))))
      (fadd
        (fsqrt (fdiv (fadd (fmul (.fin 0.999) v) (fmul (.fin 0.001) (fmul g g)))
          (.fin (1 - (0.999 : ℝ) ^ (t + 1)))))
        (.fin 1e-8)))

/-- Modelled from the spec: the adam stage applied across a gradient
tensor (flattened to a list of cells) with per-cell first and second
moment state. -/
noncomputable def adam_stage (lr : ℝ) (t : ℕ) (g mu nu : List FVal) : List FVal :=
  List.zipWith (fun gi mv => adamCell lr t gi mv.1 mv.2) g (mu.zip nu)

/-- Modelled from the spec: one cell of `optax.zero_nans`, the
NaN-to-zero substitution stage. -/
def zeroNanCell (u : FVal) : FVal :=
  if u.isNaN then .fin 0 else u

/-- Modelled from the spec: `optax.zero_nans` across an update tensor. -/
def zero_nans (us : List FVal) : List FVal :=
  us.map zeroNanCell

/-- Sum of squares of an update tensor, the quantity under the global
norm. -/
noncomputable def sum_squares (us : List FVal) : FVal :=
  us.foldr (fun u acc => fadd (fmul u u) acc) (.fin 0)

/-- The global norm `sqrt (sum_i u_i^2)` of an update tensor. -/
noncomputable def global_norm (us : List FVal) : FVal :=
  fsqrt (sum_squares us)

/-- Modelled from the spec: `optax.clip_by_global_norm c`, bounding the
magnitude of the update: if the global norm is below `c` the update
passes unchanged, otherwise every cell is rescaled by `c / norm`. -/
noncomputable def clip_by_global_norm (c : ℝ) (us : List FVal) : List FVal :=
  match global_norm us with
  | .fin x => if x < c then us else us.map (fun u => fmul (fdiv u (.fin x)) (.fin c))
  | gn => us.map (fun u => fmul (fdiv u gn) (.fin c))

/-- The composed optimizer of the update step (vae.py lines 150-151):
`optax.chain(optax.adam(lr), optax.zero_nans(), optax.clip_by_global_norm(clip_norm))`,
applied left to right: adam first, then NaN-to-zero substitution, then
global-norm clipping. -/
noncomputable def optimizer_update (lr c : ℝ) (t : ℕ) (g mu nu : List FVal) : List FVal :=
  clip_by_global_norm c (zero_nans (adam_stage lr t g mu nu))

lemma klCell_self (m lv : ℝ) : klCell m lv m lv = 0 := by
  unfold klCell
  rw [sub_self, sub_self, zero_pow (by norm_num), add_zero,
    div_self (Real.exp_ne_zero lv)]
  ring

lemma zipWith_append_row_lengths (a b : Tensor2) (D1 D2 : ℕ)
    (ha : ∀ r ∈ a, r.length = D1) (hb : ∀ r ∈ b, r.length = D2) :
    ∀ r ∈ List.zipWith (fun ra rb => ra ++ rb) a b, r.length = D1 + D2 := by
  induction a generalizing b with
  | nil => simp
  | cons x xs ih =>
    cases b with
    | nil => simp
    | cons y ys =>
      intro r hr
      simp only [List.zipWith_cons_cons, List.mem_cons] at hr
      rcases hr with rfl | hr
      · simp [ha x (by simp), hb y (by simp)]
      · exact ih ys (fun r h => ha r (by simp [h])) (fun r h => hb r (by simp [h])) r hr

/-- Claim C7: for every `GaussianParams` pair `p` (finite real-valued
mean and log-variance tensors), `gaussian_kl_divergence p p` is exactly
zero in every element: it equals the all-zeros tensor of the paired
shape. -/
theorem claim_C7_kl_self_zero (p : Tensor2 × Tensor2) :
    gaussian_kl_divergence p p = (zipT2 p.1 p.2).map (List.map (fun _ => (0 : ℝ))) := by
  unfold gaussian_kl_divergence
  rw [List.zipWith_same]
  refine List.map_congr_left (fun row _ => ?_)
  rw [List.zipWith_same]
  exact List.map_congr_left (fun c _ => klCell_self c.1 c.2)

/-- Claim C6: concatenating `GaussianParams` of shapes `[B1, D1]` and
`[B2, D2]`: when the batch dimensions agree the result exists and has
shape `[B1, D1 + D2]`; when they differ the operation fails with a shape
error (`none`) rather than returning a value. -/
theorem claim_C6_concat_shapes (pa pb : Tensor2 × Tensor2) (B1 B2 D1 D2 : ℕ)
    (ha1 : pa.1.length = B1) (ha2 : pa.2.length = B1)
    (ha1r : ∀ r ∈ pa.1, r.length = D1) (ha2r : ∀ r ∈ pa.2, r.length = D1)
    (hb1 : pb.1.length = B2) (hb2 : pb.2.length = B2)
    (hb1r : ∀ r ∈ pb.1, r.length = D2) (hb2r : ∀ r ∈ pb.2, r.length = D2) :
    (B1 = B2 → ∃ res, concat_probabilties pa pb = some res ∧
      res.1.length = B1 ∧ res.2.length = B1 ∧
      (∀ r ∈ res.1, r.length = D1 + D2) ∧ (∀ r ∈ res.2, r.length = D1 + D2)) ∧
    (B1 ≠ B2 → concat_probabilties pa pb = none) := by
  constructor
  · intro hB
    refine ⟨(List.zipWith (fun ra rb => ra ++ rb) pa.1 pb.1,
             List.zipWith (fun ra rb => ra ++ rb) pa.2 pb.2), ?_, ?_, ?_, ?_, ?_⟩
    · unfold concat_probabilties concatAxis1
      rw [if_pos (by rw [ha1, hb1, hB]), if_pos (by rw [ha2, hb2, hB])]
    · rw [List.length_zipWith, ha1, hb1, hB, min_self]
    · rw [List.length_zipWith, ha2, hb2, hB, min_self]
    · exact zipWith_append_row_lengths pa.1 pb.1 D1 D2 ha1r hb1r
    · exact zipWith_append_row_lengths pa.2 pb.2 D1 D2 ha2r hb2r
  · intro hB
    unfold concat_probabilties concatAxis1
    rw [if_neg (by rw [ha1, hb1]; exact hB)]

/-- Witness for claim C6 at a concrete input: `p_a` with shape `[2, 1]`
and `p_b` with shape `[2, 2]` concatenate to shape `[2, 3]`. -/
theorem claim_C6_concat_shapes_witness :
    ((2 : ℕ) = 2 → ∃ res,
      concat_probabilties ([[(1 : ℝ)], [2]], [[0], [0]]) ([[(3 : ℝ), 4], [5, 6]], [[0, 0], [0, 0]]) = some res ∧
      res.1.length = 2 ∧ res.2.length = 2 ∧
      (∀ r ∈ res.1, r.length = 1 + 2) ∧ (∀ r ∈ res.2, r.length = 1 + 2)) ∧
    ((2 : ℕ) ≠ 2 → concat_probabilties ([[(1 : ℝ)], [2]], [[0], [0]]) ([[(3 : ℝ), 4], [5, 6]], [[0, 0], [0, 0]]) = none) :=
  claim_C6_concat_shapes ([[(1 : ℝ)], [2]], [[0], [0]]) ([[(3 : ℝ), 4], [5, 6]], [[0, 0], [0, 0]])
    2 2 1 2 (by simp) (by simp) (by simp) (by simp) (by simp) (by simp) (by simp) (by simp)

lemma update_state_iter {M O : Type} (inner : M → O → Key → Tensor2 → ℝ × M × O)
    (s : TrainState M O) (data : Tensor2) :
    (update_state inner s data).2.iter = s.iter + 1 := rfl

lemma train_iter_ts {M O : Type} (inner : M → O → Key → Tensor2 → ℝ × M × O)
    (n : ℕ) (ls : LoopState M O) (data : Tensor2) :
    (train_iter inner n ls data).ts = (update_state inner ls.ts data).2 := by
  unfold train_iter
  by_cases hc : (update_state inner ls.ts data).2.iter % n = n - 1 <;> simp [hc]

lemma train_iter_log {M O : Type} (inner : M → O → Key → Tensor2 → ℝ × M × O)
    (n : ℕ) (ls : LoopState M O) (data : Tensor2) :
    (train_iter inner n ls data).log = ls.log ++ [(update_state inner ls.ts data).1] := by
  unfold train_iter
  by_cases hc : (update_state inner ls.ts data).2.iter % n = n - 1 <;> simp [hc]

lemma train_iter_ckpts {M O : Type} (inner : M → O → Key → Tensor2 → ℝ × M × O)
    (n : ℕ) (ls : LoopState M O) (data : Tensor2) :
    (train_iter inner n ls data).ckpts =
      if (update_state inner ls.ts data).2.iter % n = n - 1
      then ls.ckpts ++ [((update_state inner ls.ts data).2.iter + 1, (update_state inner ls.ts data).2)]
      else ls.ckpts := by
  unfold train_iter
  by_cases hc : (update_state inner ls.ts data).2.iter % n = n - 1 <;> simp [hc]

lemma train_run_cons {M O : Type} (inner : M → O → Key → Tensor2 → ℝ × M × O)
    (n : ℕ) (ls : LoopState M O) (d : Tensor2) (t : List Tensor2) :
    train_run inner n ls (d :: t) = train_run inner n (train_iter inner n ls d) t := rfl

lemma train_run_iter {M O : Type} (inner : M → O → Key → Tensor2 → ℝ × M × O)
    (n : ℕ) (bs : List Tensor2) (ls : LoopState M O) :
    (train_run inner n ls bs).ts.iter = ls.ts.iter + bs.length := by
  induction bs generalizing ls with
  | nil => simp [train_run]
  | cons d t ih =>
    rw [train_run_cons, ih, train_iter_ts, update_state_iter]
    simp only [List.length_cons]
    omega

lemma train_run_log {M O : Type} (inner : M → O → Key → Tensor2 → ℝ × M × O)
    (n : ℕ) (bs : List Tensor2) (ls : LoopState M O) :
    ∃ appended, (train_run inner n ls bs).log = ls.log ++ appended ∧
      appended.length = bs.length := by
  induction bs generalizing ls with
  | nil => exact ⟨[], by simp [train_run]⟩
  | cons d t ih =>
    obtain ⟨ap, hap, hlen⟩ := ih (train_iter inner n ls d)
    refine ⟨[(update_state inner ls.ts d).1] ++ ap, ?_, by simp [hlen]⟩
    rw [train_run_cons, hap, train_iter_log]
    simp

lemma train_run_ckpts_mem {M O : Type} (inner : M → O → Key → Tensor2 → ℝ × M × O)
    (n : ℕ) (bs : List Tensor2) (ls : LoopState M O) :
    ∀ p ∈ (train_run inner n ls bs).ckpts, p ∈ ls.ckpts ∨ p.2.iter + 1 = p.1 := by
  induction bs generalizing ls with
  | nil => intro p hp; exact Or.inl hp
  | cons d t ih =>
    intro p hp
    rw [train_run_cons] at hp
    rcases ih (train_iter inner n ls d) p hp with h | h
    · rw [train_iter_ckpts] at h
      by_cases hc : (update_state inner ls.ts d).2.iter % n = n - 1
      · rw [if_pos hc] at h
        rcases List.mem_append.mp h with h | h
        · exact Or.inl h
        · right
          have hp2 : p = ((update_state inner ls.ts d).2.iter + 1, (update_state inner ls.ts d).2) := by
            simpa using h
          rw [hp2]
      · rw [if_neg hc] at h
        exact Or.inl h
    · exact Or.inr h

lemma run_updates_iter {M O : Type} (inner : M → O → Key → Tensor2 → ℝ × M × O)
    (bs : List Tensor2) (s : TrainState M O) :
    (run_updates inner s bs).iter = s.iter + bs.length := by
  induction bs generalizing s with
  | nil => simp [run_updates]
  | cons d t ih =>
    have : run_updates inner s (d :: t) = run_updates inner (update_state inner s d).2 t := rfl
    rw [this, ih, update_state_iter]
    simp only [List.length_cons]
    omega
lemma train_run_ckpts_tags {M O : Type} (inner : M → O → Key → Tensor2 → ℝ × M × O)
    (n : ℕ) (bs : List Tensor2) (ls : LoopState M O) :
    (train_run inner n ls bs).ckpts.map Prod.fst =
      ls.ckpts.map Prod.fst ++
      (((List.range bs.length).map (fun j => ls.ts.iter + j + 1)).filter
        (fun it => it % n = n - 1)).map (fun it => it + 1) := by
  induction bs generalizing ls with
  | nil => simp [train_run]
  | cons d t ih =>
    rw [train_run_cons, ih, train_iter_ckpts, train_iter_ts, update_state_iter]
    have hrange : List.range (d :: t).length = 0 :: (List.range t.length).map Nat.succ := by
      simp [List.range_succ_eq_map]
    rw [hrange]
    simp only [List.map_cons, List.map_map, Nat.add_zero]
    have hfun : ((fun j => ls.ts.iter + j + 1) ∘ Nat.succ) = (fun j => ls.ts.iter + 1 + j + 1) := by
      funext j
      simp [Function.comp]
      omega
    rw [hfun, List.filter_cons]
    by_cases hc : (ls.ts.iter + 1) % n = n - 1
    · rw [if_pos hc, if_pos (by simpa using hc)]
      simp
    · rw [if_neg hc, if_neg (by simpa using hc)]

lemma range_filter_eq_single (m c : ℕ) (hc : c < m) :
    (List.range m).filter (fun j => j = c) = [c] := by
  induction m with
  | zero => omega
  | succ k ih =>
    rw [List.range_succ, List.filter_append]
    by_cases h : c = k
    · subst h
      have hnil : (List.range c).filter (fun j => decide (j = c)) = [] := by
        apply List.filter_eq_nil_iff.mpr
        intro j hj
        have := List.mem_range.mp hj
        simp
        omega
      simp [hnil]
    · have hck : c < k := by omega
      rw [ih hck]
      simp [h]
      omega

lemma fresh_run_tags (n : ℕ) (hn : 2 ≤ n) :
    (((List.range n).map (fun j => 0 + j + 1)).filter (fun it => it % n = n - 1)).map
      (fun it => it + 1) = [n] := by
  obtain ⟨m, rfl⟩ : ∃ m, n = m + 2 := ⟨n - 2, by omega⟩
  have h0 : (fun j => 0 + j + 1) = (fun j : ℕ => j + 1) := by funext j; omega
  rw [h0, List.filter_map]
  have hfil : (List.range (m + 2)).filter ((fun it => decide (it % (m + 2) = m + 2 - 1)) ∘ (fun j => j + 1)) = [m] := by
    rw [List.range_succ, List.filter_append]
    have h1 : (List.range (m + 1)).filter ((fun it => decide (it % (m + 2) = m + 2 - 1)) ∘ (fun j => j + 1))
        = (List.range (m + 1)).filter (fun j => j = m) := by
      apply List.filter_congr
      intro j hj
      have hj' : j < m + 1 := List.mem_range.mp hj
      have hmod : (j + 1) % (m + 2) = j + 1 := Nat.mod_eq_of_lt (by omega)
      simp [Function.comp, hmod]
    have h2 : [m + 1].filter ((fun it => decide (it % (m + 2) = m + 2 - 1)) ∘ (fun j => j + 1)) = [] := by
      simp [Function.comp, Nat.mod_self]
    rw [h1, h2, range_filter_eq_single (m + 1) m (by omega)]
    simp
  rw [hfil]
  simp


/-- Counterexample to claim C3 as stated: starting a run does erase loss
values already present in the metrics log file.  With a prior metrics
file holding the loss value `1`, starting a run (here with no iterations
yet) leaves an empty metrics file: `open(metrics_path, "w")` truncates,
so the previously present value `1` is no longer in the file. -/
theorem claim_C3_counterexample :
    metrics_file_after_train (fun _ _ _ _ => ((0 : ℝ), (), ())) 5
      (⟨(), (), 0, 0⟩ : TrainState Unit Unit) [(1 : ℝ)] [] = [] ∧
    (1 : ℝ) ∈ [(1 : ℝ)] ∧
    (1 : ℝ) ∉ metrics_file_after_train (fun _ _ _ _ => ((0 : ℝ), (), ())) 5
      (⟨(), (), 0, 0⟩ : TrainState Unit Unit) [(1 : ℝ)] [] :=
  ⟨rfl, by simp, by simp [metrics_file_after_train, train, train_run]⟩

/-- Claim C3 (amended): within a single run the metrics log is
append-only — every iteration appends exactly one loss value, so after
`k` iterations exactly `k` values follow the log content the run started
with — but starting a run (fresh or resumed from a checkpoint) opens the
metrics file in write mode, which truncates it: the metrics file after
the run is independent of the file content present before the run, so
loss values already present are erased rather than preserved. -/
theorem claim_C3_metrics_log_append_within_run {M O : Type}
    (inner : M → O → Key → Tensor2 → ℝ × M × O) (n : ℕ) :
    (∀ (ls : LoopState M O) (batches : List Tensor2), ∃ appended,
        (train_run inner n ls batches).log = ls.log ++ appended ∧
        appended.length = batches.length) ∧
    (∀ (init : TrainState M O) (prevA prevB : List ℝ) (batches : List Tensor2),
        metrics_file_after_train inner n init prevA batches =
        metrics_file_after_train inner n init prevB batches) :=
  ⟨fun ls batches => train_run_log inner n batches ls, fun _ _ _ _ => rfl⟩

/-- Counterexample to claim C4 as stated (which allows
`ckpt_interval ≥ 1`): with `ckpt_interval = 1`, training from a fresh
state for exactly one iteration persists one checkpoint, but it is
tagged `2`, not `ckpt_interval = 1` — the loop tags the saved state with
`iteration + 1`. -/
theorem claim_C4_counterexample :
    (train (fun _ _ _ _ => ((0 : ℝ), (), ())) 1
      (⟨(), (), 0, 0⟩ : TrainState Unit Unit) [] [[]]).ckpts.map Prod.fst = [2] ∧
    ([2] : List ℕ) ≠ [1] :=
  ⟨by simp [train, train_run, train_iter, update_state, random_split], by decide⟩

/-- Claim C4 (amended): for `ckpt_interval ≥ 2`, starting from a fresh
`TrainingState` with iteration 0 and running the training loop for
exactly `ckpt_interval` iterations persists exactly one checkpoint, and
that checkpoint is tagged with iteration number `ckpt_interval`;
moreover an iteration of the loop persists a checkpoint exactly when the
post-update iteration counter satisfies
`(Iteration mod ckpt_interval) = ckpt_interval - 1`.  (For
`ckpt_interval = 1` the persisted checkpoint is tagged `2`, not `1`.) -/
theorem claim_C4_one_checkpoint_per_interval {M O : Type}
    (inner : M → O → Key → Tensor2 → ℝ × M × O) (n : ℕ) (hn : 2 ≤ n)
    (fresh : TrainState M O) (h0 : fresh.iter = 0) (prevFile : List ℝ)
    (batches : List Tensor2) (hb : batches.length = n) :
    (train inner n fresh prevFile batches).ckpts.length = 1 ∧
    (train inner n fresh prevFile batches).ckpts.map Prod.fst = [n] ∧
    (∀ (ls : LoopState M O) (data : Tensor2),
      (train_iter inner n ls data).ckpts ≠ ls.ckpts ↔
        (update_state inner ls.ts data).2.iter % n = n - 1) := by
  have htags : (train inner n fresh prevFile batches).ckpts.map Prod.fst = [n] := by
    unfold train
    rw [train_run_ckpts_tags, hb]
    simp only [List.map_nil, List.nil_append, h0]
    exact fresh_run_tags n hn
  refine ⟨?_, htags, ?_⟩
  · have := congrArg List.length htags
    simpa using this
  · intro ls data
    rw [train_iter_ckpts]
    by_cases hc : (update_state inner ls.ts data).2.iter % n = n - 1
    · simp [hc]
    · simp [hc]

/-- Witness for claim C4 (amended) at a concrete input: interval 2, two
iterations from a fresh state. -/
theorem claim_C4_one_checkpoint_per_interval_witness :
    (train (fun _ _ _ _ => ((0 : ℝ), (), ())) 2
      (⟨(), (), 0, 0⟩ : TrainState Unit Unit) [] [[], []]).ckpts.length = 1 ∧
    (train (fun _ _ _ _ => ((0 : ℝ), (), ())) 2
      (⟨(), (), 0, 0⟩ : TrainState Unit Unit) [] [[], []]).ckpts.map Prod.fst = [2] ∧
    (∀ (ls : LoopState Unit Unit) (data : Tensor2),
      (train_iter (fun _ _ _ _ => ((0 : ℝ), (), ())) 2 ls data).ckpts ≠ ls.ckpts ↔
        (update_state (fun _ _ _ _ => ((0 : ℝ), (), ())) ls.ts data).2.iter % 2 = 2 - 1) :=
  claim_C4_one_checkpoint_per_interval (fun _ _ _ _ => ((0 : ℝ), (), ())) 2 (by norm_num)
    ⟨(), (), 0, 0⟩ rfl [] [[], []] rfl

/-- Counterexample to claim C5 as stated: the training loop with
interval 1 and one fresh iteration persists exactly the checkpoint
tagged `N = 2`, but loading that checkpoint's state and running `K = 1`
further update step yields iteration 2, not `N + K = 3`: the tag is one
greater than the saved iteration counter. -/
theorem claim_C5_counterexample :
    (train (fun _ _ _ _ => ((0 : ℝ), (), ())) 1
      (⟨(), (), 0, 0⟩ : TrainState Unit Unit) [] [[]]).ckpts.map Prod.fst = [2] ∧
    (run_updates (fun _ _ _ _ => ((0 : ℝ), (), ()))
      ((train (fun _ _ _ _ => ((0 : ℝ), (), ())) 1
        (⟨(), (), 0, 0⟩ : TrainState Unit Unit) [] [[]]).ckpts.getD 0
          (0, ⟨(), (), 0, 0⟩)).2 [[]]).iter = 2 ∧
    (2 : ℕ) ≠ 2 + 1 :=
  ⟨by simp [train, train_run, train_iter, update_state, random_split],
   by simp [train, train_run, train_iter, update_state, random_split, run_updates],
   by decide⟩

/-- Claim C5 (amended): every checkpoint the training loop persists is
tagged with the saved state's iteration counter plus one, so loading the
checkpoint that the loop persisted tagged `N` and running `K` more
update steps yields a `TrainingState` whose iteration equals
`N + K - 1` (stated subtraction-free as `Iteration + 1 = N + K`). -/
theorem claim_C5_resume_iteration_count {M O : Type}
    (inner inner2 : M → O → Key → Tensor2 → ℝ × M × O) (n : ℕ)
    (fresh : TrainState M O) (prevFile : List ℝ) (batches : List Tensor2)
    (tag : ℕ) (st : TrainState M O)
    (hmem : (tag, st) ∈ (train inner n fresh prevFile batches).ckpts)
    (more : List Tensor2) (K : ℕ) (hK : more.length = K) :
    (run_updates inner2 st more).iter + 1 = tag + K := by
  rcases train_run_ckpts_mem inner n batches ⟨fresh, [], []⟩ (tag, st) hmem with h | h
  · simp at h
  · rw [run_updates_iter, hK]
    simp only at h
    omega

/-- Witness for claim C5 (amended) at a concrete input: the run with
interval 2 over two batches persists the checkpoint tagged 2 holding
iteration 1; one further update step yields iteration 2 = 2 + 1 - 1. -/
theorem claim_C5_resume_iteration_count_witness :
    (run_updates (fun _ _ _ _ => ((0 : ℝ), (), ()))
      (⟨(), (), 2, 1⟩ : TrainState Unit Unit) [[]]).iter + 1 = 2 + 1 :=
  claim_C5_resume_iteration_count (fun _ _ _ _ => ((0 : ℝ), (), ()))
    (fun _ _ _ _ => ((0 : ℝ), (), ())) 2 ⟨(), (), 0, 0⟩ [] [[], []] 2 ⟨(), (), 2, 1⟩
    (by simp [train, train_run, train_iter, update_state, random_split]) [[]] 1 rfl

lemma getD_map_range {α : Type} (n i : ℕ) (f : ℕ → α) (d : α) (h : i < n) :
    ((List.range n).map f).getD i d = f i := by
  have hl : i < ((List.range n).map f).length := by simpa using h
  rw [List.getD_eq_getElem _ _ hl, List.getElem_map, List.getElem_range]

lemma getD_map_of_default {α β : Type} (f : α → β) (l : List α) (n : ℕ)
    (da : α) (db : β) (hf : f da = db) : (l.map f).getD n db = f (l.getD n da) := by
  by_cases h : n < l.length
  · rw [List.getD_eq_getElem _ _ (by simpa using h), List.getD_eq_getElem _ _ h, List.getElem_map]
  · rw [List.getD_eq_default _ _ (by simpa using Nat.le_of_not_lt h),
      List.getD_eq_default _ _ (Nat.le_of_not_lt h), hf]

lemma clampCell_zero : clampCell 0 = 0 := by
  unfold clampCell
  norm_num

lemma elem3_clamp (t : Tensor3) (a b c : ℕ) :
    elem3 (clamp_tensor t) a b c = clampCell (elem3 t a b c) := by
  unfold elem3 clamp_tensor
  rw [getD_map_of_default _ _ _ [] [] rfl, getD_map_of_default _ _ _ [] [] rfl,
    getD_map_of_default _ _ _ 0 0 clampCell_zero]

lemma dim0_clamp (t : Tensor3) : dim0 (clamp_tensor t) = dim0 t := by
  simp [dim0, clamp_tensor]

lemma dim1_clamp (t : Tensor3) : dim1 (clamp_tensor t) = dim1 t := by
  unfold dim1 clamp_tensor
  rw [getD_map_of_default _ _ _ [] [] rfl]
  simp

lemma dim2_clamp (t : Tensor3) : dim2 (clamp_tensor t) = dim2 t := by
  unfold dim2 clamp_tensor
  rw [getD_map_of_default _ _ _ [] [] rfl, getD_map_of_default _ _ _ [] [] rfl]
  simp

lemma elem3_transpose (t : Tensor3) (i j k : ℕ)
    (hi : i < dim2 t) (hj : j < dim1 t) (hk : k < dim0 t) :
    elem3 (transpose210 t) i j k = elem3 t k j i := by
  unfold transpose210
  show ((((List.range (dim2 t)).map _).getD i []).getD j []).getD k 0 = _
  rw [getD_map_range _ _ _ _ hi, getD_map_range _ _ _ _ hj, getD_map_range _ _ _ _ hk]

/-- Claim C10: the frame `show_samples` hands to the display conversion
is the pointwise clamp of the (transposed) input: for every in-bounds
index, the displayed tensor's element at `(i, j, k)` equals
`clamp(samples[k, j, i], 0, 255)`, and in particular every value that
reaches the `uint8` display conversion lies in `[0, 255]`. -/
theorem claim_C10_show_samples_clamps (s : Tensor3) (i j k : ℕ)
    (hi : i < dim2 s) (hj : j < dim1 s) (hk : k < dim0 s) :
    elem3 (show_samples s) i j k = clampCell (elem3 s k j i) ∧
    0 ≤ elem3 (show_samples s) i j k ∧ elem3 (show_samples s) i j k ≤ 255 := by
  have h1 : elem3 (show_samples s) i j k = elem3 (clamp_tensor s) k j i := by
    unfold show_samples
    exact elem3_transpose (clamp_tensor s) i j k (by rwa [dim2_clamp]) (by rwa [dim1_clamp])
      (by rwa [dim0_clamp])
  rw [h1, elem3_clamp]
  refine ⟨rfl, le_max_left 0 _, ?_⟩
  exact max_le (by norm_num) (min_le_right _ _)

/-- Witness for claim C10 at a concrete input: a single out-of-range
sample value 300 is displayed as its clamp (255), inside `[0, 255]`. -/
theorem claim_C10_show_samples_clamps_witness :
    elem3 (show_samples [[[300]]]) 0 0 0 = clampCell (elem3 [[[300]]] 0 0 0) ∧
    0 ≤ elem3 (show_samples [[[300]]]) 0 0 0 ∧ elem3 (show_samples [[[300]]]) 0 0 0 ≤ 255 :=
  claim_C10_show_samples_clamps [[[300]]] 0 0 0 (by simp [dim2]) (by simp [dim1]) (by simp [dim0])

/-- Claim C9: `sample_vae` is deterministic — it is a pure function of
its arguments, so two invocations with the same decoder, key and sizes
return identical outputs — and the latent draw and the output draw
consume the two distinct child keys obtained by splitting the input key:
the latent draw uses the first child only and the output draw the second
child only, and the two children are never equal. -/
theorem claim_C9_sample_vae_key_discipline (normal : Key → List ℕ → Tensor2)
    (n_latent n_samples : ℕ)
    (vae : (Tensor1 → Tensor1 × Tensor1) × (Tensor1 → Tensor1 × Tensor1)) (key : Key) :
    (sample_vae normal n_latent n_samples vae key =
      sample_vae normal n_latent n_samples vae key) ∧
    (sample_vae normal n_latent n_samples vae key =
      sample_gaussian normal
        (vmap2 vae.2 (sample_gaussian normal
          (zeros2 n_samples n_latent, zeros2 n_samples n_latent) (random_split key).1))
        (random_split key).2) ∧
    (random_split key).1 ≠ (random_split key).2 := by
  refine ⟨rfl, rfl, ?_⟩
  show 2 * key + 1 ≠ 2 * key + 2
  simp

noncomputable def vae_loss_noise
    (vae : (Tensor1 → Tensor1 × Tensor1) × (Tensor1 → Tensor1 × Tensor1))
    (data eps : Tensor2) : ℝ :=
  let q := vmap2 vae.1 data
  let z := List.zipWith (List.zipWith (fun pc e => sampleCell pc.1 pc.2 e)) (zipT2 q.1 q.2) eps
  let kl := gaussian_kl_divergence q (zerosLike q.1, zerosLike q.1)
  let p := vmap2 vae.2 z
  let log_p := gaussian_log_probabilty p data
  (sum2 (neg2 log_p) + sum2 kl) / (size2 data : ℝ)

lemma vae_loss_eq_noise (normal : Key → List ℕ → Tensor2)
    (vae : (Tensor1 → Tensor1 × Tensor1) × (Tensor1 → Tensor1 × Tensor1))
    (data : Tensor2) (key : Key) :
    vae_loss normal vae data key =
      vae_loss_noise vae data (normal key ((vmap2 vae.1 data).1.map List.length)) := rfl

noncomputable def rowTerm
    (vae : (Tensor1 → Tensor1 × Tensor1) × (Tensor1 → Tensor1 × Tensor1))
    (x e : Tensor1) : ℝ :=
  let q := vae.1 x
  let z := List.zipWith (fun c ev => sampleCell c.1 c.2 ev) (q.1.zip q.2) e
  let p := vae.2 z
  ((List.zipWith (fun c xv => logpCell c.1 c.2 xv) (p.1.zip p.2) x).map (fun v => -v)).sum
    + ((q.1.zip q.2).map (fun c => klCell c.1 c.2 0 0)).sum

lemma zipWith_zip_zeros (f : ℝ × ℝ → ℝ × ℝ → ℝ) (l1 l2 : List ℝ) :
    List.zipWith f (l1.zip l2) ((l1.map (fun _ => (0 : ℝ))).zip (l1.map (fun _ => (0 : ℝ)))) =
      (l1.zip l2).map (fun c => f c (0, 0)) := by
  induction l1 generalizing l2 with
  | nil => simp
  | cons a as ih =>
    cases l2 with
    | nil => simp
    | cons b bs =>
      simp only [List.map_cons, List.zip_cons_cons, List.zipWith_cons_cons]
      rw [ih bs]

noncomputable def lossNum
    (vae : (Tensor1 → Tensor1 × Tensor1) × (Tensor1 → Tensor1 × Tensor1))
    (data eps : Tensor2) : ℝ :=
  let q := vmap2 vae.1 data
  let z := List.zipWith (List.zipWith (fun pc e => sampleCell pc.1 pc.2 e)) (zipT2 q.1 q.2) eps
  let kl := gaussian_kl_divergence q (zerosLike q.1, zerosLike q.1)
  let p := vmap2 vae.2 z
  let log_p := gaussian_log_probabilty p data
  sum2 (neg2 log_p) + sum2 kl

lemma lossNum_rows
    (vae : (Tensor1 → Tensor1 × Tensor1) × (Tensor1 → Tensor1 × Tensor1))
    (data eps : Tensor2) (h : data.length = eps.length) :
    lossNum vae data eps = ((data.zip eps).map (fun pe => rowTerm vae pe.1 pe.2)).sum := by
  induction data generalizing eps with
  | nil =>
    simp [lossNum, vmap2, zipT2, sum2, neg2, gaussian_kl_divergence, gaussian_log_probabilty]
  | cons x xs ih =>
    cases eps with
    | nil => exact absurd h (by simp)
    | cons e es =>
      have hlen : xs.length = es.length := by simpa using h
      have hrec := ih es hlen
      unfold lossNum rowTerm at hrec ⊢
      simp only [vmap2, zipT2, List.map_cons, List.zipWith_cons_cons, List.zip_cons_cons,
        gaussian_kl_divergence, gaussian_log_probabilty, zerosLike, sum2, neg2,
        List.sum_cons] at hrec ⊢
      rw [zipWith_zip_zeros]
      simp only [List.map_cons, List.sum_cons]
      linarith [hrec]

lemma vae_loss_noise_rows
    (vae : (Tensor1 → Tensor1 × Tensor1) × (Tensor1 → Tensor1 × Tensor1))
    (data eps : Tensor2) (h : data.length = eps.length) :
    vae_loss_noise vae data eps =
      ((data.zip eps).map (fun pe => rowTerm vae pe.1 pe.2)).sum / (size2 data : ℝ) := by
  have hnum : vae_loss_noise vae data eps = lossNum vae data eps / (size2 data : ℝ) := rfl
  rw [hnum, lossNum_rows vae data eps h]

/-- Claim C1: `vae_loss` returns exactly
`(sum of the negated decoder log-probability of the batch + sum of the
KL divergence of the encoder latents against the standard-normal prior
(0,0)) / (total element count of the batch)`, where the latent sample is
the one reparameterized draw taken from the encoder output with the
provided key; equivalently (second conjunct) the loss is the sum over
examples of the per-example closed-form reconstruction and KL terms,
divided by the batch element count. -/
theorem claim_C1_vae_loss_formula (normal : Key → List ℕ → Tensor2)
    (vae : (Tensor1 → Tensor1 × Tensor1) × (Tensor1 → Tensor1 × Tensor1))
    (data : Tensor2) (key : Key)
    (hlen : (normal key ((vmap2 vae.1 data).1.map List.length)).length = data.length) :
    vae_loss normal vae data key =
      (sum2 (neg2 (gaussian_log_probabilty
          (vmap2 vae.2 (sample_gaussian normal (vmap2 vae.1 data) key)) data)) +
        sum2 (gaussian_kl_divergence (vmap2 vae.1 data)
          (zerosLike (vmap2 vae.1 data).1, zerosLike (vmap2 vae.1 data).1))) /
        (size2 data : ℝ) ∧
    vae_loss normal vae data key =
      ((data.zip (normal key ((vmap2 vae.1 data).1.map List.length))).map
        (fun pe => rowTerm vae pe.1 pe.2)).sum / (size2 data : ℝ) := by
  refine ⟨rfl, ?_⟩
  rw [vae_loss_eq_noise, vae_loss_noise_rows vae data _ hlen.symm]

/-- Witness for claim C1 at a concrete input: a one-example,
one-feature batch with an identity-style encoder and decoder. -/
theorem claim_C1_vae_loss_formula_witness :
    vae_loss (fun _ _ => [[0]]) (fun x => (x, x), fun z => (z, z)) [[(1 : ℝ)]] 0 =
      (sum2 (neg2 (gaussian_log_probabilty
          (vmap2 (fun z => (z, z)) (sample_gaussian (fun _ _ => [[0]])
            (vmap2 (fun x => (x, x)) [[(1 : ℝ)]]) 0)) [[(1 : ℝ)]])) +
        sum2 (gaussian_kl_divergence (vmap2 (fun x => (x, x)) [[(1 : ℝ)]])
          (zerosLike (vmap2 (fun x => (x, x)) [[(1 : ℝ)]]).1,
           zerosLike (vmap2 (fun x => (x, x)) [[(1 : ℝ)]]).1))) /
        (size2 [[(1 : ℝ)]] : ℝ) ∧
    vae_loss (fun _ _ => [[0]]) (fun x => (x, x), fun z => (z, z)) [[(1 : ℝ)]] 0 =
      (([[(1 : ℝ)]].zip ((fun (_ : Key) (_ : List ℕ) => [[(0 : ℝ)]]) 0
          ((vmap2 (fun x => (x, x)) [[(1 : ℝ)]]).1.map List.length))).map
        (fun pe => rowTerm (fun x => (x, x), fun z => (z, z)) pe.1 pe.2)).sum /
        (size2 [[(1 : ℝ)]] : ℝ) :=
  claim_C1_vae_loss_formula (fun _ _ => [[0]]) (fun x => (x, x), fun z => (z, z))
    [[(1 : ℝ)]] 0 rfl

/-- Counterexample to claim C2 as stated: permuting the examples of the
batch alone changes the value of `vae_loss`.  The batch `[[0], [1]]` and
its permutation `[[1], [0]]` give different losses under an encoder
`x ↦ (x, 0)`, a decoder `z ↦ (2z, 0)` and a noise draw `[[0], [1]]`
fixed by the key and shape: the noise tensor is indexed by position, so
permuting the examples re-pairs examples with different noise rows. -/
theorem claim_C2_counterexample :
    List.Perm ([[(0 : ℝ)], [1]] : Tensor2) ([[(1 : ℝ)], [0]] : Tensor2) ∧
    vae_loss (fun _ _ => [[0], [1]])
      (fun x => (x, x.map (fun _ => 0)), fun z => (z.map (fun v => 2 * v), z.map (fun _ => 0)))
      [[(0 : ℝ)], [1]] 0 ≠
    vae_loss (fun _ _ => [[0], [1]])
      (fun x => (x, x.map (fun _ => 0)), fun z => (z.map (fun v => 2 * v), z.map (fun _ => 0)))
      [[(1 : ℝ)], [0]] 0 := by
  constructor
  · exact List.Perm.swap _ _ _
  · intro hEq
    simp only [vae_loss, sample_gaussian, gaussian_kl_divergence, gaussian_log_probabilty,
      vmap2, zipT2, sum2, size2, neg2, zerosLike, sampleCell, klCell, logpCell,
      List.map_cons, List.map_nil, List.zipWith_cons_cons, List.zip_cons_cons,
      List.zipWith_nil, List.sum_cons, List.sum_nil, List.length_cons, List.length_nil] at hEq
    norm_num [Real.exp_zero] at hEq
    linarith

/-- Claim C2 (amended): the scalar returned by the variational objective
is invariant under permuting the examples of the batch together with the
corresponding rows of the reparameterization noise (first conjunct, with
`vae_loss_noise` the loss as a function of the explicit noise tensor and
`vae_loss` recovering it by drawing the noise from the key and latent
shape — second conjunct).  Permuting the examples alone can change the
value, because the noise tensor drawn inside `vae_loss` is indexed by
position, not by example. -/
theorem claim_C2_loss_perm_with_noise
    (vae : (Tensor1 → Tensor1 × Tensor1) × (Tensor1 → Tensor1 × Tensor1))
    (data data' eps eps' : Tensor2)
    (hd : data.length = eps.length) (hd' : data'.length = eps'.length)
    (hperm : (data.zip eps).Perm (data'.zip eps')) :
    vae_loss_noise vae data eps = vae_loss_noise vae data' eps' ∧
    (∀ (normal : Key → List ℕ → Tensor2) (key : Key),
      vae_loss normal vae data key =
        vae_loss_noise vae data (normal key ((vmap2 vae.1 data).1.map List.length))) := by
  refine ⟨?_, fun normal key => rfl⟩
  rw [vae_loss_noise_rows vae data eps hd, vae_loss_noise_rows vae data' eps' hd']
  have hsum := (hperm.map (fun pe => rowTerm vae pe.1 pe.2)).sum_eq
  have hdp : data.Perm data' := by
    have h1 := hperm.map Prod.fst
    rw [List.map_fst_zip data eps (le_of_eq hd), List.map_fst_zip data' eps' (le_of_eq hd')] at h1
    exact h1
  have hsize : size2 data = size2 data' := by
    unfold size2
    exact (hdp.map List.length).sum_eq
  rw [hsum, hsize]

/-- Witness for claim C2 (amended) at a concrete input: swapping the two
examples of a batch together with their noise rows leaves the loss
unchanged. -/
theorem claim_C2_loss_perm_with_noise_witness :
    vae_loss_noise (fun x => (x, x), fun z => (z, z)) [[(1 : ℝ)], [2]] [[(5 : ℝ)], [6]] =
      vae_loss_noise (fun x => (x, x), fun z => (z, z)) [[(2 : ℝ)], [1]] [[(6 : ℝ)], [5]] ∧
    (∀ (normal : Key → List ℕ → Tensor2) (key : Key),
      vae_loss normal (fun x => (x, x), fun z => (z, z)) [[(1 : ℝ)], [2]] key =
        vae_loss_noise (fun x => (x, x), fun z => (z, z)) [[(1 : ℝ)], [2]]
          (normal key ((vmap2 (fun x => (x, x)) [[(1 : ℝ)], [2]]).1.map List.length))) :=
  claim_C2_loss_perm_with_noise (fun x => (x, x), fun z => (z, z))
    [[(1 : ℝ)], [2]] [[(2 : ℝ)], [1]] [[(5 : ℝ)], [6]] [[(6 : ℝ)], [5]] rfl rfl
    (List.Perm.swap _ _ _)

lemma fadd_fin_fin (x y : ℝ) : fadd (.fin x) (.fin y) = .fin (x + y) := rfl

lemma fadd_fin_pinf (x : ℝ) : fadd (.fin x) .pinf = .pinf := rfl

lemma fadd_fin_ninf (x : ℝ) : fadd (.fin x) .ninf = .ninf := rfl

lemma fadd_pinf_fin (x : ℝ) : fadd .pinf (.fin x) = .pinf := rfl

lemma fadd_fin_nan (x : ℝ) : fadd (.fin x) .nan = .nan := rfl

lemma fadd_nan_left (y : FVal) : fadd .nan y = .nan := by cases y <;> rfl

lemma fmul_fin_fin (x y : ℝ) : fmul (.fin x) (.fin y) = .fin (x * y) := rfl

lemma fmul_fin_pinf (x : ℝ) :
    fmul (.fin x) .pinf = if x = 0 then .nan else if 0 < x then .pinf else .ninf := rfl

lemma fmul_fin_ninf (x : ℝ) :
    fmul (.fin x) .ninf = if x = 0 then .nan else if 0 < x then .ninf else .pinf := rfl

lemma fmul_fin_nan (x : ℝ) : fmul (.fin x) .nan = .nan := rfl

lemma fmul_pinf_pinf : fmul .pinf .pinf = .pinf := rfl

lemma fmul_ninf_ninf : fmul .ninf .ninf = .pinf := rfl

lemma fdiv_fin_fin (x y : ℝ) :
    fdiv (.fin x) (.fin y) =
      if y = 0 then (if x = 0 then .nan else if 0 < x then .pinf else .ninf)
      else .fin (x / y) := rfl

lemma fdiv_fin_nan (x : ℝ) : fdiv (.fin x) .nan = .nan := rfl

lemma fdiv_nan_left (y : FVal) : fdiv .nan y = .nan := by cases y <;> rfl

lemma fdiv_pinf_fin (y : ℝ) : fdiv .pinf (.fin y) = if 0 ≤ y then .pinf else .ninf := rfl

lemma fdiv_ninf_fin (y : ℝ) : fdiv .ninf (.fin y) = if 0 ≤ y then .ninf else .pinf := rfl

lemma fdiv_pinf_pinf : fdiv .pinf .pinf = .nan := rfl

lemma fdiv_ninf_pinf : fdiv .ninf .pinf = .nan := rfl

lemma fsqrt_fin (x : ℝ) : fsqrt (.fin x) = if x < 0 then .nan else .fin (Real.sqrt x) := rfl

lemma fsqrt_pinf : fsqrt .pinf = .pinf := rfl

lemma zeroNanCell_nan : zeroNanCell .nan = .fin 0 := rfl

lemma zeroNanCell_fin (x : ℝ) : zeroNanCell (.fin x) = .fin x := rfl

lemma bias1_pos (t : ℕ) : 0 < 1 - (0.9 : ℝ) ^ (t + 1) := by
  have h := pow_lt_one₀ (by norm_num : (0 : ℝ) ≤ 0.9) (by norm_num : (0.9 : ℝ) < 1)
    (by omega : t + 1 ≠ 0)
  linarith

lemma bias2_pos (t : ℕ) : 0 < 1 - (0.999 : ℝ) ^ (t + 1) := by
  have h := pow_lt_one₀ (by norm_num : (0 : ℝ) ≤ 0.999) (by norm_num : (0.999 : ℝ) < 1)
    (by omega : t + 1 ≠ 0)
  linarith

lemma zeroNanCell_adamCell_fin (lr : ℝ) (t : ℕ) (g m v : ℝ) :
    (zeroNanCell (adamCell lr t (.fin g) (.fin m) (.fin v))).isFin = true := by
  have h1 := bias1_pos t
  have h2 := bias2_pos t
  unfold adamCell
  simp only [fmul_fin_fin, fadd_fin_fin, fdiv_fin_fin]
  rw [if_neg (by linarith : ¬(1 - (0.9 : ℝ) ^ (t + 1) = 0)),
    if_neg (by linarith : ¬(1 - (0.999 : ℝ) ^ (t + 1) = 0)), fsqrt_fin]
  by_cases hv : (0.999 * v + 0.001 * (g * g)) / (1 - (0.999 : ℝ) ^ (t + 1)) < 0
  · rw [if_pos hv, fadd_nan_left, fdiv_fin_nan, fmul_fin_nan, zeroNanCell_nan]
    rfl
  · rw [if_neg hv, fadd_fin_fin, fdiv_fin_fin,
      if_neg (by positivity :
        ¬(Real.sqrt ((0.999 * v + 0.001 * (g * g)) / (1 - (0.999 : ℝ) ^ (t + 1))) + 1e-8 = 0)),
      fmul_fin_fin, zeroNanCell_fin]
    rfl

lemma adamCell_pinf (lr : ℝ) (t : ℕ) (m v : ℝ) :
    adamCell lr t .pinf (.fin m) (.fin v) = .nan := by
  have h1 := bias1_pos t
  have h2 := bias2_pos t
  unfold adamCell
  rw [fmul_fin_pinf, if_neg (by norm_num : ¬(0.1 : ℝ) = 0),
    if_pos (by norm_num : (0 : ℝ) < 0.1), fmul_fin_fin, fadd_fin_pinf, fmul_pinf_pinf,
    fmul_fin_pinf, if_neg (by norm_num : ¬(0.001 : ℝ) = 0),
    if_pos (by norm_num : (0 : ℝ) < 0.001), fmul_fin_fin, fadd_fin_pinf,
    fdiv_pinf_fin, if_pos (le_of_lt h1), fdiv_pinf_fin, if_pos (le_of_lt h2),
    fsqrt_pinf, fadd_pinf_fin, fdiv_pinf_pinf, fmul_fin_nan]

lemma adamCell_ninf (lr : ℝ) (t : ℕ) (m v : ℝ) :
    adamCell lr t .ninf (.fin m) (.fin v) = .nan := by
  have h1 := bias1_pos t
  have h2 := bias2_pos t
  unfold adamCell
  rw [fmul_fin_ninf, if_neg (by norm_num : ¬(0.1 : ℝ) = 0),
    if_pos (by norm_num : (0 : ℝ) < 0.1), fmul_fin_fin, fadd_fin_ninf, fmul_ninf_ninf,
    fmul_fin_pinf, if_neg (by norm_num : ¬(0.001 : ℝ) = 0),
    if_pos (by norm_num : (0 : ℝ) < 0.001), fmul_fin_fin, fadd_fin_pinf,
    fdiv_ninf_fin, if_pos (le_of_lt h1), fdiv_pinf_fin, if_pos (le_of_lt h2),
    fsqrt_pinf, fadd_pinf_fin, fdiv_ninf_pinf, fmul_fin_nan]

lemma adamCell_nan_grad (lr : ℝ) (t : ℕ) (m v : ℝ) :
    adamCell lr t .nan (.fin m) (.fin v) = .nan := rfl

lemma zeroNanCell_adamCell_isFin (lr : ℝ) (t : ℕ) (g : FVal) (m v : ℝ) :
    (zeroNanCell (adamCell lr t g (.fin m) (.fin v))).isFin = true := by
  cases g with
  | fin x => exact zeroNanCell_adamCell_fin lr t x m v
  | pinf => rw [adamCell_pinf, zeroNanCell_nan]; rfl
  | ninf => rw [adamCell_ninf, zeroNanCell_nan]; rfl
  | nan => rw [adamCell_nan_grad, zeroNanCell_nan]; rfl

lemma zeroNanCell_adamCell_nonfin (lr : ℝ) (t : ℕ) (g : FVal) (hg : g.isFin = false)
    (m v : ℝ) : zeroNanCell (adamCell lr t g (.fin m) (.fin v)) = .fin 0 := by
  cases g with
  | fin x => exact absurd hg (by simp [FVal.isFin])
  | pinf => rw [adamCell_pinf, zeroNanCell_nan]
  | ninf => rw [adamCell_ninf, zeroNanCell_nan]
  | nan => rw [adamCell_nan_grad, zeroNanCell_nan]

lemma mem_zero_nans_adam_stage_isFin (lr : ℝ) (t : ℕ) (g : List FVal) (mus nus : List ℝ) :
    ∀ u ∈ zero_nans (adam_stage lr t g (mus.map .fin) (nus.map .fin)), u.isFin = true := by
  induction g generalizing mus nus with
  | nil => simp [zero_nans, adam_stage]
  | cons gh gt ih =>
    cases mus with
    | nil => simp [zero_nans, adam_stage]
    | cons mh mt =>
      cases nus with
      | nil => simp [zero_nans, adam_stage]
      | cons nh nt =>
        intro u hu
        simp only [List.map_cons, List.zip_cons_cons, adam_stage, List.zipWith_cons_cons,
          zero_nans, List.mem_cons] at hu
        rcases hu with rfl | hu
        · exact zeroNanCell_adamCell_isFin lr t gh mh nh
        · exact ih mt nt u (by simpa [zero_nans, adam_stage] using hu)

lemma getD_zero_nans_adam_stage (lr : ℝ) (t : ℕ) (g : List FVal) (mus nus : List ℝ) (i : ℕ)
    (hg : (g.getD i .nan).isFin = false) :
    (zero_nans (adam_stage lr t g (mus.map .fin) (nus.map .fin))).getD i (.fin 0) = .fin 0 := by
  induction g generalizing mus nus i with
  | nil => simp [zero_nans, adam_stage]
  | cons gh gt ih =>
    cases mus with
    | nil => simp [zero_nans, adam_stage]
    | cons mh mt =>
      cases nus with
      | nil => simp [zero_nans, adam_stage]
      | cons nh nt =>
        cases i with
        | zero =>
          simp only [List.getD_cons_zero] at hg
          simp only [List.map_cons, List.zip_cons_cons, adam_stage, List.zipWith_cons_cons,
            zero_nans, List.getD_cons_zero]
          exact zeroNanCell_adamCell_nonfin lr t gh hg mh nh
        | succ n =>
          simp only [List.getD_cons_succ] at hg
          simp only [List.map_cons, List.zip_cons_cons, adam_stage, List.zipWith_cons_cons,
            zero_nans, List.getD_cons_succ]
          exact ih mt nt n hg

lemma sum_squares_cons (u : FVal) (ut : List FVal) :
    sum_squares (u :: ut) = fadd (fmul u u) (sum_squares ut) := rfl

lemma sum_squares_fin (us : List FVal) (h : ∀ u ∈ us, u.isFin = true) :
    ∃ s, sum_squares us = .fin s ∧ 0 ≤ s := by
  induction us with
  | nil => exact ⟨0, rfl, le_refl 0⟩
  | cons u ut ih =>
    obtain ⟨s, hs, hs0⟩ := ih (fun x hx => h x (by simp [hx]))
    have hu := h u (by simp)
    cases u with
    | fin x =>
      refine ⟨x * x + s, ?_, by nlinarith⟩
      rw [sum_squares_cons, hs, fmul_fin_fin, fadd_fin_fin]
    | pinf => exact absurd hu (by simp [FVal.isFin])
    | ninf => exact absurd hu (by simp [FVal.isFin])
    | nan => exact absurd hu (by simp [FVal.isFin])

lemma clip_eq_of_norm_fin (c : ℝ) (us : List FVal) (sv : ℝ)
    (hgn : global_norm us = .fin sv) :
    clip_by_global_norm c us =
      if sv < c then us else us.map (fun u => fmul (fdiv u (.fin sv)) (.fin c)) := by
  unfold clip_by_global_norm
  rw [hgn]

lemma clip_mem_fin (c : ℝ) (hc : 0 < c) (us : List FVal)
    (h : ∀ u ∈ us, u.isFin = true) :
    ∀ u ∈ clip_by_global_norm c us, u.isFin = true := by
  obtain ⟨s, hs, hs0⟩ := sum_squares_fin us h
  have hgn : global_norm us = .fin (Real.sqrt s) := by
    unfold global_norm
    rw [hs, fsqrt_fin, if_neg (not_lt.mpr hs0)]
  intro u hu
  rw [clip_eq_of_norm_fin c us (Real.sqrt s) hgn] at hu
  by_cases hlt : Real.sqrt s < c
  · rw [if_pos hlt] at hu
    exact h u hu
  · rw [if_neg hlt] at hu
    obtain ⟨x, hx, rfl⟩ := List.mem_map.mp hu
    have hxf := h x hx
    cases x with
    | fin xv =>
      have hsn : ¬(Real.sqrt s = 0) := by
        have hcle : c ≤ Real.sqrt s := not_lt.mp hlt
        intro h0
        rw [h0] at hcle
        linarith
      rw [fdiv_fin_fin, if_neg hsn, fmul_fin_fin]
      rfl
    | pinf => exact absurd hxf (by simp [FVal.isFin])
    | ninf => exact absurd hxf (by simp [FVal.isFin])
    | nan => exact absurd hxf (by simp [FVal.isFin])

/-- Claim C8: the update step's optimizer is the left-to-right chain
adam, then NaN-to-zero substitution, then global-norm clipping
(`optax.chain(optax.adam(lr), optax.zero_nans(), optax.clip_by_global_norm(clip_norm))`,
vae.py lines 150-151), and under this chain a non-finite gradient entry
is suppressed rather than raised: from any finite optimizer moment
state, (i) the composed update is exactly clip ∘ zero-nans ∘ adam, (ii)
after the NaN-to-zero stage every entry is finite, (iii) every position
whose incoming gradient is non-finite (NaN or an infinity) carries
exactly zero there, and (iv) the final update is finite in every entry,
so the update step completes and training continues for every input
batch. -/
theorem claim_C8_optimizer_chain_suppresses (lr c : ℝ) (hc : 0 < c) (t : ℕ)
    (g : List FVal) (mus nus : List ℝ) :
    optimizer_update lr c t g (mus.map .fin) (nus.map .fin) =
      clip_by_global_norm c (zero_nans (adam_stage lr t g (mus.map .fin) (nus.map .fin))) ∧
    (∀ u ∈ zero_nans (adam_stage lr t g (mus.map .fin) (nus.map .fin)), u.isFin = true) ∧
    (∀ i, (g.getD i .nan).isFin = false →
      (zero_nans (adam_stage lr t g (mus.map .fin) (nus.map .fin))).getD i (.fin 0) = .fin 0) ∧
    (∀ u ∈ optimizer_update lr c t g (mus.map .fin) (nus.map .fin), u.isFin = true) := by
  refine ⟨rfl, mem_zero_nans_adam_stage_isFin lr t g mus nus,
    fun i => getD_zero_nans_adam_stage lr t g mus nus i, ?_⟩
  exact clip_mem_fin c hc _ (mem_zero_nans_adam_stage_isFin lr t g mus nus)

/-- Witness for claim C8 at a concrete input: a gradient with a NaN
entry and a +infinity entry, zero-initialized moments, and clip norm 1. -/
theorem claim_C8_optimizer_chain_suppresses_witness :
    (0 : ℝ) < 1 ∧
    (optimizer_update 0 1 0 [.nan, .pinf] ([(0 : ℝ), 0].map .fin) ([(0 : ℝ), 0].map .fin) =
      clip_by_global_norm 1 (zero_nans (adam_stage 0 0 [.nan, .pinf]
        ([(0 : ℝ), 0].map .fin) ([(0 : ℝ), 0].map .fin))) ∧
    (∀ u ∈ zero_nans (adam_stage 0 0 [.nan, .pinf]
        ([(0 : ℝ), 0].map .fin) ([(0 : ℝ), 0].map .fin)), u.isFin = true) ∧
    (∀ i, (([.nan, .pinf] : List FVal).getD i .nan).isFin = false →
      (zero_nans (adam_stage 0 0 [.nan, .pinf]
        ([(0 : ℝ), 0].map .fin) ([(0 : ℝ), 0].map .fin))).getD i (.fin 0) = .fin 0) ∧
    (∀ u ∈ optimizer_update 0 1 0 [.nan, .pinf]
        ([(0 : ℝ), 0].map .fin) ([(0 : ℝ), 0].map .fin), u.isFin = true)) :=
  ⟨by norm_num,
   claim_C8_optimizer_chain_suppresses 0 1 (by norm_num) 0 [.nan, .pinf] [0, 0] [0, 0]⟩
